import Mathlib

/-!
Verification development for the OperatorAgent repository.

The Python modules under src/agent are shallowly embedded here:

* queue_manager.py : task records, lifecycle transitions (mark_in_progress,
  mark_done, mark_error), pending selection and sorting (iter_pending with
  _parse_datetime), JSON-lines loading (load_queue) and atomic saving
  (save_queue_atomic).
* block_reader.py : block records, validate_block and read_block.
* result_writer.py / error_writer.py : write_result and write_error over an
  explicit file-system state.

Machine-level concerns are modelled explicitly: Python dict fields that may be
absent or null become Option types, fallible operations return Except or pair
the state with an Option error, and external library functions (datetime
parsing, character encoding, SHA-256) are oracle parameters, so every theorem
quantifies over them.
-/

namespace OperatorAgent

/-- Python exception classes that the embedded fragments can raise. -/
inductive PyErr where
  | typeError
  | osError
  | validationError
deriving DecidableEq, Repr

/-! ## Task records (queue_manager.py)

A queue entry is a JSON object; the code accesses it with dict.get, so every
field is optional.  A missing field and a field set to JSON null are both
modelled as none (the code treats them alike in every place it reads them). -/

/-- One task dictionary from the queue file (queue_manager.py). -/
structure Task where
  id : Option String
  status : Option String
  priority : Option Int
  created_at : Option String
  result_path : Option String
  error_path : Option String
  error_msg : Option String
  completed_at : Option String
deriving DecidableEq, Repr

/-- Predicate used by the three mark functions to locate a task:
the source computes next(t for t in items if t.get("id") == task_id). -/
def idMatches (task_id : String) (t : Task) : Bool :=
  decide (t.id = some task_id)

/-- Replace the first element satisfying p by its image under f, as the
in-place mutation of the dict found by next(...) does in the source. -/
def updateFirst (p : Task → Bool) (f : Task → Task) : List Task → List Task
  | [] => []
  | t :: ts => if p t then f t :: ts else t :: updateFirst p f ts

/-- Observable outcome of a lifecycle call, as reported through the logger
in the source: not-found, redundant no-op, rejected transition, or mutation. -/
inductive MarkOutcome where
  | notFound
  | noop
  | rejected
  | mutated
deriving DecidableEq, Repr

/-- mark_in_progress (queue_manager.py lines 137-160). -/
def mark_in_progress (items : List Task) (task_id : String) :
    List Task × MarkOutcome :=
  match items.find? (idMatches task_id) with
  | none => (items, .notFound)
  | some t =>
    if t.status = some "in_progress" then (items, .noop)
    else if t.status = some "done" ∨ t.status = some "error" then
      (items, .rejected)
    else
      (updateFirst (idMatches task_id)
        (fun u => { u with status := some "in_progress" }) items, .mutated)

/-- mark_done (queue_manager.py lines 163-195). -/
def mark_done (items : List Task) (task_id : String)
    (result_path : String) (completed_at : String) :
    List Task × MarkOutcome :=
  match items.find? (idMatches task_id) with
  | none => (items, .notFound)
  | some t =>
    if t.status = some "done" then (items, .noop)
    else if t.status = some "error" then (items, .rejected)
    else
      (updateFirst (idMatches task_id)
        (fun u => { u with
          status := some "done"
          result_path := some result_path
          completed_at := some completed_at
          error_path := none
          error_msg := none }) items, .mutated)

/-- mark_error (queue_manager.py lines 198-231). -/
def mark_error (items : List Task) (task_id : String)
    (error_msg : String) (error_path : String) (completed_at : String) :
    List Task × MarkOutcome :=
  match items.find? (idMatches task_id) with
  | none => (items, .notFound)
  | some t =>
    if t.status = some "error" then (items, .noop)
    else if t.status = some "done" then (items, .rejected)
    else
      (updateFirst (idMatches task_id)
        (fun u => { u with
          status := some "error"
          error_msg := some error_msg
          error_path := some error_path
          completed_at := some completed_at
          result_path := none }) items, .mutated)

/-! Spec-side transition tables (spec section 4.3), used to state the
refinement claim C4: the outcome of each lifecycle call is a function of the
current status alone. -/

/-- Transition table of the spec for start (mark_in_progress): no-op if
already in_progress, rejected if terminal, otherwise a mutation. -/
def specStartOutcome (s : Option String) : MarkOutcome :=
  if s = some "in_progress" then .noop
  else if s = some "done" ∨ s = some "error" then .rejected
  else .mutated

/-- Transition table of the spec for complete (mark_done): no-op if already
done, rejected if error, otherwise a mutation. -/
def specCompleteOutcome (s : Option String) : MarkOutcome :=
  if s = some "done" then .noop
  else if s = some "error" then .rejected
  else .mutated

/-- Transition table of the spec for fail (mark_error): no-op if already
error, rejected if done, otherwise a mutation. -/
def specFailOutcome (s : Option String) : MarkOutcome :=
  if s = some "error" then .noop
  else if s = some "done" then .rejected
  else .mutated

/-- Status is one of the four schema enum values (spec section 3). -/
def statusEnum (t : Task) : Prop :=
  t.status = some "pending" ∨ t.status = some "in_progress" ∨
  t.status = some "done" ∨ t.status = some "error"

instance (t : Task) : Decidable (statusEnum t) := by
  unfold statusEnum
  infer_instance

/-- The TaskRecord invariant of spec section 3: exactly one of result_path and
error_path is non-null once the status is terminal, both are null while the
task is pending or in progress. -/
def TaskInvariant (t : Task) : Prop :=
  ((t.status = some "done" ∨ t.status = some "error") →
    ((t.result_path.isSome ∧ t.error_path = none) ∨
     (t.result_path = none ∧ t.error_path.isSome))) ∧
  ((t.status = some "pending" ∨ t.status = some "in_progress") →
    (t.result_path = none ∧ t.error_path = none))

instance (t : Task) : Decidable (TaskInvariant t) := by
  unfold TaskInvariant
  infer_instance

/-! ## Pending selection and sorting (iter_pending, _parse_datetime)

The sort key of iter_pending is the Python tuple (-priority, parsed), where
parsed is a datetime, the raw (stripped) string, or None.  Python tuple
comparison first tests equality of the leading components and only then
orders the trailing ones; ordering a datetime against a str or None, or a
naive against an aware datetime, raises TypeError.  CPython list.sort is a
stable comparison sort, so it raises exactly when the input forces it to
order two keys whose comparison raises, i.e. when two pending tasks share a
priority but carry sort keys of incomparable kinds; on inputs whose keys are
pairwise comparable it returns the unique stable order. -/

/-- A Python datetime for sorting purposes: whether it is timezone-aware and
an injective integer linearisation of its instant (aware datetimes compare by
instant, naive ones by their fields; the two kinds do not compare). -/
structure PyDT where
  aware : Bool
  val : Int
deriving DecidableEq, Repr

/-- The value _parse_datetime contributes to the sort key: None, a datetime,
or the stripped original string. -/
inductive CKey where
  | nil
  | dt (aware : Bool) (v : Int)
  | str (s : String)
deriving DecidableEq, Repr

/-- Three-way comparison of integers. -/
def intCmp (a b : Int) : Ordering :=
  if a < b then .lt else if b < a then .gt else .eq

/-- Three-way comparison of strings by code points, as Python compares str. -/
def strCmp (a b : String) : Ordering :=
  if a < b then .lt else if b < a then .gt else .eq

/-- Partial comparison of created_at sort keys; none models the TypeError
Python raises when ordering values of incompatible kinds. -/
def createdCmp : CKey → CKey → Option Ordering
  | .nil, .nil => some .eq
  | .dt a v, .dt b w => if a = b then some (intCmp v w) else none
  | .str s, .str t => some (strCmp s t)
  | _, _ => none

/-- The full sort key of a task: negated priority, then the created_at key. -/
abbrev SortKey := Int × CKey

/-- Partial comparison of sort keys, following Python tuple comparison:
equal first components fall through to the second, unequal ones decide. -/
def keyCmp : SortKey → SortKey → Option Ordering
  | (p, c), (q, d) => if p = q then createdCmp c d else some (intCmp p q)

/-- Python str.strip(): drop leading and trailing whitespace.  Implemented on
the character list so that it evaluates inside the kernel. -/
def pyStrip (s : String) : String :=
  ⟨((s.data.dropWhile Char.isWhitespace).reverse.dropWhile
      Char.isWhitespace).reverse⟩

/-- The helper _parse_datetime (queue_manager.py lines 85-110), parameterised by the two
library parsers it calls: fromiso models datetime.fromisoformat and strp
models datetime.strptime with format %Y-%m-%dT%H:%M:%S, each returning none
where CPython raises.  The result is mapped directly into the sort-key
component it produces. -/
def _parse_datetime (fromiso strp : String → Option PyDT)
    (dt : Option String) : CKey :=
  match dt with
  | none => .nil
  | some s0 =>
    let s := pyStrip s0
    if s = "" then .str s
    else if s.data.getLast? = some 'Z' then
      match fromiso (⟨s.data.dropLast⟩ ++ "+00:00") with
      | some d => .dt d.aware d.val
      | none =>
        match strp s with
        | some d => .dt d.aware d.val
        | none => .str s
    else
      match fromiso s with
      | some d => .dt d.aware d.val
      | none =>
        match strp s with
        | some d => .dt d.aware d.val
        | none => .str s

/-- The sort key lambda of iter_pending:
(-task.get("priority", 0), _parse_datetime(task.get("created_at"))). -/
def taskKey (fromiso strp : String → Option PyDT) (t : Task) : SortKey :=
  (-(t.priority.getD 0), _parse_datetime fromiso strp t.created_at)

/-- Boolean comparability of the sort keys of two tasks. -/
def compB (fromiso strp : String → Option PyDT) (a b : Task) : Bool :=
  (keyCmp (taskKey fromiso strp a) (taskKey fromiso strp b)).isSome

/-- Boolean strict order on tasks induced by the partial key comparison. -/
def taskLtB (fromiso strp : String → Option PyDT) (a b : Task) : Bool :=
  decide (keyCmp (taskKey fromiso strp a) (taskKey fromiso strp b) =
    some Ordering.lt)

/-- All unordered pairs of the list are comparable. -/
def pairwiseComparable (fromiso strp : String → Option PyDT) :
    List Task → Bool
  | [] => true
  | x :: l => l.all (compB fromiso strp x) && pairwiseComparable fromiso strp l

/-- Insert x into l in front of the first element not strictly below it;
this is the unique stable insertion position. -/
def orderedInsert (lt : α → α → Bool) (x : α) : List α → List α
  | [] => [x]
  | a :: l => if lt a x then a :: orderedInsert lt x l else x :: a :: l

/-- Stable insertion sort; on pairwise comparable keys it computes the same
list as any stable comparison sort, in particular CPython list.sort. -/
def insertionSort (lt : α → α → Bool) : List α → List α
  | [] => []
  | x :: l => orderedInsert lt x (insertionSort lt l)

/-- The pending filter of iter_pending (queue_manager.py line 126). -/
def pendingOf (items : List Task) : List Task :=
  items.filter (fun t => decide (t.status = some "pending"))

/-- iter_pending (queue_manager.py lines 113-134).  The call pending.sort is
modelled as: the stable sort by the partial key order when all key pairs are
comparable, and the TypeError CPython raises when the list contains a pair of
pending tasks with equal priority and incomparable created_at keys. -/
def iter_pending (fromiso strp : String → Option PyDT)
    (items : List Task) : Except PyErr (List Task) :=
  let pending := pendingOf items
  if pairwiseComparable fromiso strp pending then
    .ok (insertionSort (taskLtB fromiso strp) pending)
  else
    .error .typeError

/-! ## Queue file model (load_queue, save_queue_atomic)

A JSON-lines file is a list of physical lines.  Each non-empty line either
fails json.loads or parses to a JSON value; json.dumps escapes control
characters, so one serialised record always occupies one line, and the
dumps/loads pair of the json library is the identity on values.  A line is
therefore modelled as empty, malformed, or a parsed JSON value. -/

/-- A JSON value as handled by the json library (numbers restricted to
integers, the only kind the queue schema admits). -/
inductive JVal where
  | null
  | bool (b : Bool)
  | int (n : Int)
  | str (s : String)
  | arr (elems : List JVal)
  | obj (fields : List (String × JVal))

/-- Key lookup in a JSON object (Python dict access). -/
def jlookup (fields : List (String × JVal)) (k : String) : Option JVal :=
  match fields with
  | [] => none
  | (k1, v) :: rest => if k1 = k then some v else jlookup rest k

/-- One physical line of the queue file after stripping the newline. -/
inductive RawLine where
  | empty
  | badJson (s : String)
  | json (v : JVal)

/-- A present field must be a string or null. -/
def isStrOrNull : Option JVal → Bool
  | none => true
  | some .null => true
  | some (.str _) => true
  | _ => false

/-- Modelled from the spec: schemas/queue_line.schema.json is not under src/,
so the per-line schema is taken from spec section 3 (TaskRecord): an object
with required string id, status drawn from the four-value enum, integer
priority and string created_at timestamp, while result_path, error_path,
error_msg and completed_at are nullable strings populated only on terminal
transitions. -/
def schemaValidQueue : JVal → Bool
  | .obj fs =>
    (match jlookup fs "id" with | some (.str _) => true | _ => false) &&
    (match jlookup fs "status" with
      | some (.str s) =>
        decide (s = "pending" ∨ s = "in_progress" ∨ s = "done" ∨ s = "error")
      | _ => false) &&
    (match jlookup fs "priority" with | some (.int _) => true | _ => false) &&
    (match jlookup fs "created_at" with
      | some (.str _) => true | _ => false) &&
    isStrOrNull (jlookup fs "result_path") &&
    isStrOrNull (jlookup fs "error_path") &&
    isStrOrNull (jlookup fs "error_msg") &&
    isStrOrNull (jlookup fs "completed_at")
  | _ => false

/-- What load_queue keeps of one line: the parsed value when the line parses
as JSON and passes schema validation, nothing otherwise. -/
def classifyLine : RawLine → Option JVal
  | .empty => none
  | .badJson _ => none
  | .json v => if schemaValidQueue v then some v else none

/-- The reading loop of load_queue: accumulates valid entries (in reverse)
and counts processed non-empty lines exactly as the source loop does. -/
def loadLoop : List RawLine → List JVal → Nat → List JVal × Nat
  | [], acc, n => (acc.reverse, n)
  | .empty :: rest, acc, n => loadLoop rest acc n
  | .badJson _ :: rest, acc, n => loadLoop rest acc (n + 1)
  | .json v :: rest, acc, n =>
    if schemaValidQueue v then loadLoop rest (v :: acc) (n + 1)
    else loadLoop rest acc (n + 1)

/-- load_queue (queue_manager.py lines 39-82), over the parsed lines of the
file. -/
def load_queue (lines : List RawLine) : List JVal :=
  (loadLoop lines [] 0).1

/-- The lines save_queue_atomic writes: one json.dumps line per record. -/
def saveLines (items : List JVal) : List RawLine :=
  items.map RawLine.json

/-- Projection of a record onto the eight TaskRecord fields named by the
round-trip property. -/
def projTask (v : JVal) : List (Option JVal) :=
  match v with
  | .obj fs =>
    [jlookup fs "id", jlookup fs "status", jlookup fs "priority",
     jlookup fs "created_at", jlookup fs "result_path",
     jlookup fs "error_path", jlookup fs "error_msg",
     jlookup fs "completed_at"]
  | _ => []

/-! ## File-system state and atomic save -/

/-- A file system fragment: a partial map from paths to file contents. -/
structure FSt (α : Type) where
  files : String → Option α

/-- Write (create or overwrite) a file. -/
def FSt.set (fs : FSt α) (p : String) (c : α) : FSt α :=
  ⟨fun q => if q = p then some c else fs.files q⟩

/-- Remove a file. -/
def FSt.remove (fs : FSt α) (p : String) : FSt α :=
  ⟨fun q => if q = p then none else fs.files q⟩

/-- Where save_queue_atomic can fail: while writing the temp file (after k
lines were written), at the fsync, at the final os.replace, or nowhere. -/
inductive FailPoint where
  | duringWrite (k : Nat)
  | atFsync
  | atReplace
  | noFail
deriving DecidableEq, Repr

/-- The failure happens strictly before the final os.replace step. -/
def beforeReplace : FailPoint → Bool
  | .duringWrite _ => true
  | .atFsync => true
  | _ => false

/-- save_queue_atomic (queue_manager.py lines 234-285): a fresh temp file in
the same directory receives the serialised records; on any exception before
the replace the temp file is removed and the error re-raised; otherwise
os.replace atomically moves the temp file over the target.  The second
component is the propagated exception, if any. -/
def save_queue_atomic (fs : FSt (List RawLine)) (path tmp : String)
    (items : List JVal) (fail : FailPoint) :
    FSt (List RawLine) × Option PyErr :=
  match fail with
  | .duringWrite k =>
    ((fs.set tmp (saveLines (items.take k))).remove tmp, some .osError)
  | .atFsync =>
    ((fs.set tmp (saveLines items)).remove tmp, some .osError)
  | .atReplace =>
    ((fs.set tmp (saveLines items)).remove tmp, some .osError)
  | .noFail =>
    (((fs.set tmp (saveLines items)).remove tmp).set path (saveLines items),
      none)

/-! ## Block records and validation (block_reader.py)

The block dictionary is read with dict.get throughout, so fields are
optional.  Character encoding and SHA-256 are library functions external to
the repository; they enter the embedding as oracle parameters bundled in a
Codec, together with the JSON schema check of schemas/block.schema.json
(whose content no claim depends on). -/

/-- One block dictionary parsed from a block JSON file. -/
structure BlockRecord where
  block_id : Option String
  seq : Option Int
  total_seqs : Option Int
  text : Option String
  encoding : Option String
  size_bytes : Option Int
  hash_sha256 : Option String
  status : Option String
deriving DecidableEq, Repr

/-- The individual integrity rules of validate_block, in source order.
statusNote stands for the informational log on damaged/binary status. -/
inductive VRule where
  | textLength
  | encodingFail
  | sizeLimit
  | sizeTolerance
  | hashMismatch
  | seqRange
  | statusNote
deriving DecidableEq, Repr

/-- Errors validate_block can raise: the always-hard jsonschema violation, or
a BlockValidationError naming the rule that fired in strict mode. -/
inductive VErr where
  | schema
  | strictFail (r : VRule)
deriving DecidableEq, Repr

/-- Library oracles used by validate_block: strict encoding of text under a
named charset (none where Python raises LookupError or UnicodeEncodeError),
the utf-8 encode with errors="replace" fallback (total), the SHA-256 hex
digest of a byte string, and the block JSON schema check. -/
structure Codec where
  encodeStrict : String → String → Option (List Nat)
  encodeReplace : String → List Nat
  sha256hex : List Nat → String
  blockSchema : BlockRecord → Bool

/-- The checks of validate_block that run after the text has been encoded
(block_reader.py lines 125-188): absolute size limit, size tolerance, hash,
sequence bounds, status note.  warns0 carries the warnings already issued.
The size tolerance threshold 0.08 * recorded_size is compared in exact
arithmetic (100 * diff vs 8 * recorded); the claims touch it only where the
difference is zero, where this agrees with the float computation. -/
def checksAfterEncoding (c : Codec) (b : BlockRecord) (strict : Bool)
    (warns0 : List VRule) (encoded : List Nat) : Except VErr (List VRule) :=
  let recorded_size : Int := b.size_bytes.getD 0
  let recorded_hash : String := b.hash_sha256.getD ""
  let computed_size : Int := (encoded.length : Int)
  let sizeLimitBad : Bool := decide (computed_size > 1048576)
  if strict && sizeLimitBad then .error (.strictFail .sizeLimit) else
  let warns1 := if sizeLimitBad then warns0 ++ [VRule.sizeLimit] else warns0
  let significantMismatch : Bool :=
    if recorded_size = 0 then decide (computed_size ≠ 0)
    else decide
      ((100 : Int) * (computed_size - recorded_size).natAbs >
        8 * recorded_size)
  if strict && significantMismatch then
    .error (.strictFail .sizeTolerance) else
  let warns2 :=
    if significantMismatch then warns1 ++ [VRule.sizeTolerance] else warns1
  let computed_hash := c.sha256hex encoded
  let hashBad : Bool := decide (computed_hash ≠ recorded_hash)
  if strict && hashBad then .error (.strictFail .hashMismatch) else
  let warns3 := if hashBad then warns2 ++ [VRule.hashMismatch] else warns2
  let seqBad : Bool :=
    match b.seq, b.total_seqs with
    | some s, some t => decide (¬ (1 ≤ s ∧ s ≤ t))
    | _, _ => false
  if strict && seqBad then .error (.strictFail .seqRange) else
  let warns4 := if seqBad then warns3 ++ [VRule.seqRange] else warns3
  let statusNoted : Bool :=
    decide (b.status = some "damaged" ∨ b.status = some "binary")
  let warns5 :=
    if statusNoted then warns4 ++ [VRule.statusNote] else warns4
  .ok warns5

/-- validate_block (block_reader.py lines 67-188): schema check (always
hard), text length, encoding with utf-8 replace fallback in soft mode, then
the post-encoding checks.  In strict mode the first flagged rule raises; in
soft mode flags accumulate as warnings and the function completes. -/
def validate_block (c : Codec) (b : BlockRecord) (strict : Bool) :
    Except VErr (List VRule) :=
  if !(c.blockSchema b) then .error .schema else
  let text := b.text.getD ""
  let encoding := b.encoding.getD "utf-8"
  let lengthBad : Bool := decide (text.length > 20000)
  if strict && lengthBad then .error (.strictFail .textLength) else
  let warns0 := if lengthBad then [VRule.textLength] else []
  match c.encodeStrict text encoding with
  | some encoded => checksAfterEncoding c b strict warns0 encoded
  | none =>
    if strict then .error (.strictFail .encodingFail)
    else
      checksAfterEncoding c b strict (warns0 ++ [VRule.encodingFail])
        (c.encodeReplace text)

/-- read_block (block_reader.py lines 191-232), after the file has been read
and parsed into a dictionary: strict is set exactly when the declared status
is ok, then validate_block runs and its error, if any, propagates. -/
def read_block (c : Codec) (b : BlockRecord) : Except VErr BlockRecord :=
  let strict : Bool := decide (b.status = some "ok")
  match validate_block c b strict with
  | .error e => .error e
  | .ok _ => .ok b

/-! ## Result and error writers (result_writer.py, error_writer.py)

The two schema checks of each writer are again oracle parameters; the claims
concern only the path computation and the overwrite behaviour. -/

/-- The result path base_dir/Archive/AnalysisResults/block_id.json. -/
def resultPath (base_dir block_id : String) : String :=
  base_dir ++ "/Archive/AnalysisResults/" ++ block_id ++ ".json"

/-- The wrapper object write_result builds around the payload. -/
def resultWrapper (block_id model completed_at_iso analysis_version : String)
    (analysis_obj : JVal) : JVal :=
  .obj [("block_id", .str block_id), ("model", .str model),
    ("completed_at", .str completed_at_iso),
    ("analysis_version", .str analysis_version),
    ("analysis", analysis_obj)]

/-- write_result (result_writer.py lines 49-120): validate the payload, then
the wrapper; if the result file already exists, return its path untouched,
otherwise write the wrapper there. -/
def write_result (payloadOk resultOk : JVal → Bool) (fs : FSt JVal)
    (base_dir block_id model analysis_version : String)
    (analysis_obj : JVal) (completed_at_iso : String) :
    FSt JVal × Except PyErr String :=
  if !(payloadOk analysis_obj) then (fs, .error .validationError) else
  let result :=
    resultWrapper block_id model completed_at_iso analysis_version
      analysis_obj
  if !(resultOk result) then (fs, .error .validationError) else
  let out := resultPath base_dir block_id
  if (fs.files out).isSome then (fs, .ok out)
  else (fs.set out result, .ok out)

/-- The error base path base_dir/Archive/AnalysisErrors/block_id.json. -/
def errorBasePath (base_dir block_id : String) : String :=
  base_dir ++ "/Archive/AnalysisErrors/" ++ block_id ++ ".json"

/-- The timestamp suffix: the ISO timestamp with "-" and ":" removed, as the
two single-character str.replace calls compute.  Implemented on the
character list so that it evaluates inside the kernel. -/
def tsSuffix (timestamp_iso : String) : String :=
  ⟨(timestamp_iso.data.filter (fun ch => ch ≠ '-')).filter
    (fun ch => ch ≠ ':')⟩

/-- The collision path block_id__SUFFIX.json used when the base file already
exists. -/
def errorTsPath (base_dir block_id timestamp_iso : String) : String :=
  base_dir ++ "/Archive/AnalysisErrors/" ++ block_id ++ "__" ++
    tsSuffix timestamp_iso ++ ".json"

/-- The error object write_error builds and validates. -/
def errorObject (block_id task_id error_type error_detail : String)
    (response_text : Option String) (timestamp_iso : String) : JVal :=
  .obj [("block_id", .str block_id), ("task_id", .str task_id),
    ("error_type", .str error_type), ("error_detail", .str error_detail),
    ("response_text",
      match response_text with | none => .null | some s => .str s),
    ("timestamp", .str timestamp_iso)]

/-- write_error (error_writer.py lines 37-93): validate the error object;
write it at the base path, or at the timestamp-suffixed path when the base
file already exists. -/
def write_error (errOk : JVal → Bool) (fs : FSt JVal)
    (base_dir block_id task_id error_type error_detail : String)
    (response_text : Option String) (timestamp_iso : String) :
    FSt JVal × Except PyErr String :=
  let eobj :=
    errorObject block_id task_id error_type error_detail response_text
      timestamp_iso
  if !(errOk eobj) then (fs, .error .validationError) else
  let base := errorBasePath base_dir block_id
  let out :=
    if (fs.files base).isSome then errorTsPath base_dir block_id timestamp_iso
    else base
  (fs.set out eobj, .ok out)

/-! ## Helper lemmas -/

lemma intCmp_ne_gt {a b : Int} : ¬ intCmp a b = .gt ↔ a ≤ b := by
  unfold intCmp
  split_ifs with h1 h2 <;> simp <;> omega

lemma strCmp_ne_gt {a b : String} : ¬ strCmp a b = .gt ↔ a ≤ b := by
  unfold strCmp
  split_ifs with h1 h2
  · simpa using h1.le
  · simpa using not_le.mpr h2
  · simpa using le_of_not_lt h2

lemma intCmp_swap (a b : Int) : intCmp a b = (intCmp b a).swap := by
  unfold intCmp
  split_ifs <;> first | rfl | omega

lemma strCmp_swap (a b : String) : strCmp a b = (strCmp b a).swap := by
  unfold strCmp
  split_ifs with h1 h2 h3
  · exact absurd h2 (lt_asymm h1)
  · rfl
  · rfl
  · rfl

lemma createdCmp_swap (c d : CKey) :
    createdCmp c d = (createdCmp d c).map Ordering.swap := by
  cases c <;> cases d <;> try rfl
  · rename_i a v b w
    show (if a = b then some (intCmp v w) else none) =
      (if b = a then some (intCmp w v) else none).map Ordering.swap
    by_cases h : a = b
    · subst h
      rw [if_pos rfl, if_pos rfl, intCmp_swap v w]
      rfl
    · rw [if_neg h, if_neg (Ne.symm h)]
      rfl
  · rename_i s t
    show some (strCmp s t) = (some (strCmp t s)).map Ordering.swap
    rw [strCmp_swap s t]
    rfl

lemma keyCmp_swap (x y : SortKey) :
    keyCmp x y = (keyCmp y x).map Ordering.swap := by
  obtain ⟨p, c⟩ := x; obtain ⟨q, d⟩ := y
  show (if p = q then createdCmp c d else some (intCmp p q)) =
    (if q = p then createdCmp d c else some (intCmp q p)).map Ordering.swap
  by_cases h : p = q
  · subst h
    rw [if_pos rfl, if_pos rfl]
    exact createdCmp_swap c d
  · rw [if_neg h, if_neg (Ne.symm h), intCmp_swap p q]
    rfl

lemma keyCmp_refl (x : SortKey) : keyCmp x x = some .eq := by
  obtain ⟨p, c⟩ := x
  show (if p = p then createdCmp c c else some (intCmp p p)) = some .eq
  rw [if_pos rfl]
  cases c with
  | nil => rfl
  | dt a v =>
    show (if a = a then some (intCmp v v) else none) = some .eq
    rw [if_pos rfl]
    have hv : intCmp v v = .eq := by
      unfold intCmp
      rw [if_neg (lt_irrefl v), if_neg (lt_irrefl v)]
    rw [hv]
  | str s =>
    show some (strCmp s s) = some .eq
    have hs : strCmp s s = .eq := by
      unfold strCmp
      rw [if_neg (lt_irrefl s), if_neg (lt_irrefl s)]
    rw [hs]

lemma keyCmp_gt_iff_lt {x y : SortKey} :
    keyCmp x y = some .gt ↔ keyCmp y x = some .lt := by
  rw [keyCmp_swap x y]
  rcases hyx : keyCmp y x with _ | o
  · simp
  · cases o <;> simp [Ordering.swap]

lemma keyCmp_isSome_symm {x y : SortKey} (h : (keyCmp x y).isSome = true) :
    (keyCmp y x).isSome = true := by
  rw [keyCmp_swap x y] at h
  rcases hyx : keyCmp y x with _ | o
  · rw [hyx] at h
    simp at h
  · rfl

lemma createdCmp_le_trans {c d e : CKey}
    (cxy : (createdCmp c d).isSome = true)
    (cyz : (createdCmp d e).isSome = true)
    (hxy : createdCmp c d ≠ some .gt) (hyz : createdCmp d e ≠ some .gt) :
    createdCmp c e ≠ some .gt := by
  cases c with
  | nil =>
    cases d with
    | nil => cases e <;> simp_all [createdCmp]
    | dt b w => simp [createdCmp] at cxy
    | str t => simp [createdCmp] at cxy
  | dt a v =>
    cases d with
    | nil => simp [createdCmp] at cxy
    | str t => simp [createdCmp] at cxy
    | dt b w =>
      cases e with
      | nil => simp [createdCmp] at cyz
      | str u => simp [createdCmp] at cyz
      | dt b2 u =>
        simp only [createdCmp] at cxy cyz hxy hyz ⊢
        by_cases h1 : a = b
        · by_cases h2 : b = b2
          · subst h1; subst h2
            rw [if_pos rfl] at hxy hyz ⊢
            simp only [Ne, Option.some_inj] at hxy hyz ⊢
            rw [intCmp_ne_gt] at hxy hyz ⊢
            omega
          · rw [if_neg h2] at cyz
            simp at cyz
        · rw [if_neg h1] at cxy
          simp at cxy
  | str s =>
    cases d with
    | nil => simp [createdCmp] at cxy
    | dt b w => simp [createdCmp] at cxy
    | str t =>
      cases e with
      | nil => simp [createdCmp] at cyz
      | dt b2 u => simp [createdCmp] at cyz
      | str u =>
        simp only [createdCmp, Ne, Option.some_inj] at hxy hyz ⊢
        rw [strCmp_ne_gt] at hxy hyz ⊢
        exact le_trans hxy hyz

lemma keyCmp_ne_gt_of_not_lt {x y : SortKey}
    (h : ¬ keyCmp x y = some .lt) : ¬ keyCmp y x = some .gt := by
  intro hgt
  exact h (keyCmp_gt_iff_lt.mp hgt)

lemma keyCmp_le_trans {x y z : SortKey}
    (cxy : (keyCmp x y).isSome = true) (cyz : (keyCmp y z).isSome = true)
    (hxy : ¬ keyCmp x y = some .gt) (hyz : ¬ keyCmp y z = some .gt) :
    ¬ keyCmp x z = some .gt := by
  obtain ⟨p, c⟩ := x; obtain ⟨q, d⟩ := y; obtain ⟨r, e⟩ := z
  simp only [keyCmp] at *
  by_cases h1 : p = q
  · subst h1
    rw [if_pos rfl] at cxy hxy
    by_cases h2 : p = r
    · subst h2
      rw [if_pos rfl] at cyz hyz ⊢
      exact createdCmp_le_trans cxy cyz hxy hyz
    · rw [if_neg h2] at hyz ⊢
      exact hyz
  · rw [if_neg h1] at cxy hxy
    by_cases h2 : q = r
    · subst h2
      rw [if_neg h1]
      exact hxy
    · rw [if_neg h2] at hyz
      simp only [Option.some_inj] at hxy hyz
      rw [intCmp_ne_gt] at hxy hyz
      have hpq : p < q := lt_of_le_of_ne hxy h1
      have hqr : q < r := lt_of_le_of_ne hyz h2
      have h3 : ¬ p = r := by omega
      rw [if_neg h3]
      simp only [Option.some_inj]
      rw [intCmp_ne_gt]
      omega

lemma mem_orderedInsert {α : Type} (lt : α → α → Bool) (x : α)
    (l : List α) (y : α) :
    y ∈ orderedInsert lt x l ↔ y = x ∨ y ∈ l := by
  induction l with
  | nil => simp [orderedInsert]
  | cons a l ih =>
    simp only [orderedInsert]
    split_ifs with h
    · simp only [List.mem_cons, ih]
      tauto
    · simp only [List.mem_cons]

lemma orderedInsert_perm {α : Type} (lt : α → α → Bool) (x : α)
    (l : List α) : (orderedInsert lt x l).Perm (x :: l) := by
  induction l with
  | nil => simp [orderedInsert]
  | cons a l ih =>
    simp only [orderedInsert]
    split_ifs with h
    · exact (ih.cons a).trans (List.Perm.swap x a l)
    · exact List.Perm.refl _

lemma insertionSort_perm {α : Type} (lt : α → α → Bool) (l : List α) :
    (insertionSort lt l).Perm l := by
  induction l with
  | nil => simp [insertionSort]
  | cons a l ih =>
    exact (orderedInsert_perm lt a (insertionSort lt l)).trans (ih.cons a)

lemma pairwise_orderedInsert {α : Type} (k : α → SortKey)
    (lt : α → α → Bool)
    (hlt : ∀ a b, lt a b = decide (keyCmp (k a) (k b) = some .lt))
    (x : α) (l : List α)
    (hcx : ∀ y ∈ l, (keyCmp (k x) (k y)).isSome = true)
    (hcl : l.Pairwise (fun a b => (keyCmp (k a) (k b)).isSome = true))
    (hs : l.Pairwise (fun a b => ¬ keyCmp (k a) (k b) = some .gt)) :
    (orderedInsert lt x l).Pairwise
      (fun a b => ¬ keyCmp (k a) (k b) = some .gt) := by
  induction l with
  | nil => simp [orderedInsert, List.pairwise_cons]
  | cons a l ih =>
    rcases List.pairwise_cons.mp hs with ⟨ha, hl⟩
    rcases List.pairwise_cons.mp hcl with ⟨hca, hcl2⟩
    have hcxa : (keyCmp (k x) (k a)).isSome = true :=
      hcx a (List.mem_cons_self a l)
    have hcxl : ∀ y ∈ l, (keyCmp (k x) (k y)).isSome = true :=
      fun y hy => hcx y (List.mem_cons_of_mem a hy)
    simp only [orderedInsert]
    split_ifs with h
    · rw [hlt] at h
      have hax : keyCmp (k a) (k x) = some .lt := of_decide_eq_true h
      refine List.pairwise_cons.mpr ⟨?_, ih hcxl hcl2 hl⟩
      intro y hy
      rcases (mem_orderedInsert lt x l y).mp hy with rfl | hy2
      · rw [hax]
        simp
      · exact ha y hy2
    · rw [hlt] at h
      have hnax : ¬ keyCmp (k a) (k x) = some .lt := by
        intro hc
        exact h (decide_eq_true hc)
      have hxa : ¬ keyCmp (k x) (k a) = some .gt :=
        keyCmp_ne_gt_of_not_lt hnax
      refine List.pairwise_cons.mpr ⟨?_, hs⟩
      intro y hy
      rcases List.mem_cons.mp hy with rfl | hy2
      · exact hxa
      · exact keyCmp_le_trans hcxa (hca y hy2) hxa (ha y hy2)

lemma pairwise_insertionSort {α : Type} (k : α → SortKey)
    (lt : α → α → Bool)
    (hlt : ∀ a b, lt a b = decide (keyCmp (k a) (k b) = some .lt))
    (l : List α)
    (hcl : l.Pairwise (fun a b => (keyCmp (k a) (k b)).isSome = true)) :
    (insertionSort lt l).Pairwise
      (fun a b => ¬ keyCmp (k a) (k b) = some .gt) := by
  induction l with
  | nil => simp [insertionSort]
  | cons x l ih =>
    rcases List.pairwise_cons.mp hcl with ⟨hx, hcl2⟩
    have hsymm : Symmetric
        (fun a b : α => (keyCmp (k a) (k b)).isSome = true) :=
      fun a b h => keyCmp_isSome_symm h
    have hperm := insertionSort_perm lt l
    have hcsorted :
        (insertionSort lt l).Pairwise
          (fun a b => (keyCmp (k a) (k b)).isSome = true) := by
      refine (List.Perm.pairwise_iff ?_ hperm).mpr hcl2
      intro a b h
      exact keyCmp_isSome_symm h
    have hcx : ∀ y ∈ insertionSort lt l,
        (keyCmp (k x) (k y)).isSome = true :=
      fun y hy => hx y (hperm.mem_iff.mp hy)
    exact pairwise_orderedInsert k lt hlt x (insertionSort lt l) hcx
      hcsorted (ih hcl2)

lemma filter_orderedInsert_eq {α : Type} (k : α → SortKey)
    (lt : α → α → Bool)
    (hlt : ∀ a b, lt a b = decide (keyCmp (k a) (k b) = some .lt))
    (x : α) (l : List α) (k0 : SortKey) (hx : k x = k0) :
    (orderedInsert lt x l).filter (fun t => decide (k t = k0)) =
      x :: l.filter (fun t => decide (k t = k0)) := by
  induction l with
  | nil => simp [orderedInsert, List.filter, hx]
  | cons a l ih =>
    simp only [orderedInsert]
    split_ifs with h
    · have ha : ¬ k a = k0 := by
        intro hak
        rw [hlt] at h
        have hax : keyCmp (k a) (k x) = some .lt := of_decide_eq_true h
        rw [hak, hx] at hax
        rw [keyCmp_refl k0] at hax
        exact absurd (Option.some_inj.mp hax) (by simp)
      rw [List.filter_cons_of_neg (by simpa using ha), ih,
        List.filter_cons_of_neg (by simpa using ha)]
    · rw [List.filter_cons_of_pos (by simpa using hx)]

lemma filter_orderedInsert_ne {α : Type} (lt : α → α → Bool)
    (k : α → SortKey) (x : α) (l : List α) (k0 : SortKey)
    (hx : ¬ k x = k0) :
    (orderedInsert lt x l).filter (fun t => decide (k t = k0)) =
      l.filter (fun t => decide (k t = k0)) := by
  induction l with
  | nil => simp [orderedInsert, List.filter, hx]
  | cons a l ih =>
    simp only [orderedInsert]
    split_ifs with h
    · by_cases ha : k a = k0
      · rw [List.filter_cons_of_pos (by simpa using ha), ih,
          List.filter_cons_of_pos (by simpa using ha)]
      · rw [List.filter_cons_of_neg (by simpa using ha), ih,
          List.filter_cons_of_neg (by simpa using ha)]
    · rw [List.filter_cons_of_neg (by simpa using hx)]

lemma filter_insertionSort {α : Type} (k : α → SortKey)
    (lt : α → α → Bool)
    (hlt : ∀ a b, lt a b = decide (keyCmp (k a) (k b) = some .lt))
    (l : List α) (k0 : SortKey) :
    (insertionSort lt l).filter (fun t => decide (k t = k0)) =
      l.filter (fun t => decide (k t = k0)) := by
  induction l with
  | nil => simp [insertionSort]
  | cons x l ih =>
    simp only [insertionSort]
    by_cases hx : k x = k0
    · rw [filter_orderedInsert_eq k lt hlt x _ k0 hx, ih,
        List.filter_cons_of_pos (by simpa using hx)]
    · rw [filter_orderedInsert_ne lt k x _ k0 hx, ih,
        List.filter_cons_of_neg (by simpa using hx)]

lemma pairwiseComparable_iff (fromiso strp : String → Option PyDT)
    (l : List Task) :
    pairwiseComparable fromiso strp l = true ↔
      l.Pairwise (fun a b =>
        (keyCmp (taskKey fromiso strp a) (taskKey fromiso strp b)).isSome =
          true) := by
  induction l with
  | nil => simp [pairwiseComparable]
  | cons x l ih =>
    simp only [pairwiseComparable, Bool.and_eq_true, List.all_eq_true,
      List.pairwise_cons, ih, compB]
    try tauto

/-! ## Claim C1 -/

/-- Claim C1, amended to what the code does: iter_pending returns exactly the
pending tasks, with higher priority first and, within a priority, ascending
created_at key, stably (the per-key sublists of the result coincide with
those of the filtered input, so ties keep insertion order), whenever every
two pending tasks have comparable sort keys; when a parsed datetime and an
unparsable or missing created_at (or a naive and an aware datetime) meet, the
underlying sort raises TypeError instead of returning an order. -/
theorem c1_iter_pending_sorted (fromiso strp : String → Option PyDT)
    (items : List Task)
    (h : pairwiseComparable fromiso strp (pendingOf items) = true) :
    ∃ l, iter_pending fromiso strp items = .ok l ∧
      l.Pairwise (fun a b =>
        ¬ keyCmp (taskKey fromiso strp a) (taskKey fromiso strp b) =
          some .gt) ∧
      ∀ k0, l.filter (fun t => decide (taskKey fromiso strp t = k0)) =
        (pendingOf items).filter
          (fun t => decide (taskKey fromiso strp t = k0)) := by
  refine ⟨insertionSort (taskLtB fromiso strp) (pendingOf items),
    ?_, ?_, ?_⟩
  · simp [iter_pending, h]
  · exact pairwise_insertionSort (taskKey fromiso strp)
      (taskLtB fromiso strp) (fun a b => rfl) (pendingOf items)
      ((pairwiseComparable_iff fromiso strp _).mp h)
  · intro k0
    exact filter_insertionSort (taskKey fromiso strp)
      (taskLtB fromiso strp) (fun a b => rfl) (pendingOf items) k0

/-- A concrete instance of datetime.fromisoformat: it parses the canonical
string "2024-01-01T00:00:00" into a naive datetime (as CPython does) and
fails on the other strings used here (as CPython does on "zzz-not-a-date",
"bbb" and "aaa"). -/
def oracleFromiso : String → Option PyDT :=
  fun s => if s = "2024-01-01T00:00:00" then some ⟨false, 0⟩ else none

/-- A concrete instance of the strptime fallback: it fails on every string
used here, as CPython strptime with format %Y-%m-%dT%H:%M:%S does. -/
def oracleStrp : String → Option PyDT := fun _ => none

/-- A pending task whose created_at parses to a datetime. -/
def cexTaskA : Task :=
  ⟨some "a", some "pending", some 1, some "2024-01-01T00:00:00",
    none, none, none, none⟩

/-- A pending task with the same priority whose created_at does not parse. -/
def cexTaskB : Task :=
  ⟨some "b", some "pending", some 1, some "zzz-not-a-date",
    none, none, none, none⟩

/-- Claim C1 counterexample: on two pending tasks of equal priority, one with
a parsed and one with an unparsable created_at, the sort in iter_pending
compares a datetime against a str and raises TypeError, so no deterministic
total order is returned: the claim fails as stated. -/
theorem c1_counterexample :
    iter_pending oracleFromiso oracleStrp [cexTaskA, cexTaskB] =
      Except.error PyErr.typeError := by
  rfl

/-- Two pending tasks of equal priority with unparsable created_at strings:
their keys are mutually comparable. -/
def witTaskA : Task :=
  ⟨some "w1", some "pending", some 1, some "bbb", none, none, none, none⟩

/-- Second witness task, inserted after witTaskA but earlier in string
order. -/
def witTaskB : Task :=
  ⟨some "w2", some "pending", some 1, some "aaa", none, none, none, none⟩

/-- Witness for the amended claim C1 at a concrete comparable input. -/
theorem c1_witness :
    ∃ l, iter_pending oracleFromiso oracleStrp [witTaskA, witTaskB] =
        .ok l ∧
      l.Pairwise (fun a b =>
        ¬ keyCmp (taskKey oracleFromiso oracleStrp a)
          (taskKey oracleFromiso oracleStrp b) = some .gt) ∧
      ∀ k0, l.filter
          (fun t => decide (taskKey oracleFromiso oracleStrp t = k0)) =
        (pendingOf [witTaskA, witTaskB]).filter
          (fun t => decide (taskKey oracleFromiso oracleStrp t = k0)) :=
  c1_iter_pending_sorted oracleFromiso oracleStrp [witTaskA, witTaskB]
    (by rfl)

/-! ## Claims C8, C2, C3 -/

lemma loadLoop_spec (lines : List RawLine) :
    ∀ (acc : List JVal) (n : Nat),
      (loadLoop lines acc n).1 = acc.reverse ++ lines.filterMap classifyLine := by
  induction lines with
  | nil => intro acc n; simp [loadLoop]
  | cons hd tl ih =>
    intro acc n
    cases hd with
    | empty => simp [loadLoop, classifyLine, ih]
    | badJson s => simp [loadLoop, classifyLine, ih]
    | json v =>
      by_cases hv : schemaValidQueue v
      · simp [loadLoop, hv, classifyLine, ih]
      · simp [loadLoop, hv, classifyLine, ih]

lemma load_queue_eq_filterMap (lines : List RawLine) :
    load_queue lines = lines.filterMap classifyLine := by
  simpa using loadLoop_spec lines [] 0

lemma filterMap_classify_json (items : List JVal)
    (hvalid : ∀ v ∈ items, schemaValidQueue v = true) :
    (items.map RawLine.json).filterMap classifyLine = items := by
  induction items with
  | nil => rfl
  | cons v vs ih =>
    simp only [List.map_cons, List.filterMap_cons, classifyLine]
    rw [hvalid v (List.mem_cons_self v vs)]
    simp [ih (fun w hw => hvalid w (List.mem_cons_of_mem v hw))]

/-- Claim C8: load_queue returns exactly the records of the lines that parse
as JSON and pass schema validation, in file order; a malformed line is
skipped without aborting the load or affecting the records around it. -/
theorem c8_load_queue_skips (lines xs ys : List RawLine) (s : String) :
    load_queue lines = lines.filterMap classifyLine ∧
    load_queue (xs ++ RawLine.badJson s :: ys) =
      load_queue xs ++ load_queue ys := by
  constructor
  · exact load_queue_eq_filterMap lines
  · rw [load_queue_eq_filterMap, load_queue_eq_filterMap,
      load_queue_eq_filterMap, List.filterMap_append]
    simp [classifyLine]

/-- Claim C2: saving a sequence of schema-valid records and loading the
target file back yields a sequence equal under the eight TaskRecord fields
(indeed equal outright), whatever the file previously contained. -/
theorem c2_save_load_roundtrip (fs : FSt (List RawLine))
    (path tmp : String) (items : List JVal)
    (hvalid : ∀ v ∈ items, schemaValidQueue v = true) :
    (save_queue_atomic fs path tmp items .noFail).2 = none ∧
    (save_queue_atomic fs path tmp items .noFail).1.files path =
      some (saveLines items) ∧
    (load_queue (saveLines items)).map projTask = items.map projTask := by
  refine ⟨rfl, ?_, ?_⟩
  · show (((fs.set tmp _).remove tmp).set path _).files path = _
    simp [FSt.set]
  · rw [load_queue_eq_filterMap, saveLines,
      filterMap_classify_json items hvalid]

/-- A concrete schema-valid queue record. -/
def witQueueItem : JVal :=
  .obj [("id", .str "t1"), ("status", .str "pending"),
    ("priority", .int 1), ("created_at", .str "2024-01-01T00:00:00Z")]

/-- Witness for claim C2 on a concrete record and an empty file system. -/
theorem c2_witness :
    (save_queue_atomic ⟨fun _ => none⟩ "queue.jsonl" "tmp42"
        [witQueueItem] .noFail).2 = none ∧
    (save_queue_atomic ⟨fun _ => none⟩ "queue.jsonl" "tmp42"
        [witQueueItem] .noFail).1.files "queue.jsonl" =
      some (saveLines [witQueueItem]) ∧
    (load_queue (saveLines [witQueueItem])).map projTask =
      [witQueueItem].map projTask :=
  c2_save_load_roundtrip ⟨fun _ => none⟩ "queue.jsonl" "tmp42"
    [witQueueItem]
    (by
      intro v hv
      simp only [List.mem_singleton] at hv
      subst hv
      rfl)

/-- Claim C3: when save_queue_atomic fails before the final replace, the
error propagates, the temp file is gone, and every path of the file system,
in particular the target queue file, holds exactly what it held before. -/
theorem c3_save_atomic_failure (fs : FSt (List RawLine))
    (path tmp : String) (items : List JVal) (fail : FailPoint)
    (hbefore : beforeReplace fail = true) (hfresh : fs.files tmp = none) :
    (save_queue_atomic fs path tmp items fail).2 = some PyErr.osError ∧
    ∀ q, (save_queue_atomic fs path tmp items fail).1.files q =
      fs.files q := by
  cases fail with
  | duringWrite k =>
    refine ⟨rfl, ?_⟩
    intro q
    show ((fs.set tmp _).remove tmp).files q = fs.files q
    by_cases hq : q = tmp
    · subst hq
      simp [FSt.set, FSt.remove, hfresh]
    · simp [FSt.set, FSt.remove, hq]
  | atFsync =>
    refine ⟨rfl, ?_⟩
    intro q
    show ((fs.set tmp _).remove tmp).files q = fs.files q
    by_cases hq : q = tmp
    · subst hq
      simp [FSt.set, FSt.remove, hfresh]
    · simp [FSt.set, FSt.remove, hq]
  | atReplace => simp [beforeReplace] at hbefore
  | noFail => simp [beforeReplace] at hbefore

/-- A file system holding only a queue file. -/
def witFs : FSt (List RawLine) :=
  ⟨fun q => if q = "queue.jsonl" then some [RawLine.json witQueueItem]
    else none⟩

/-- Witness for claim C3: a failure at the fsync step propagates and leaves
the stored queue file untouched. -/
theorem c3_witness :
    (save_queue_atomic witFs "queue.jsonl" "tmp42" [] .atFsync).2 =
      some PyErr.osError ∧
    (save_queue_atomic witFs "queue.jsonl" "tmp42" [] .atFsync).1.files
      "queue.jsonl" = witFs.files "queue.jsonl" := by
  have h := c3_save_atomic_failure witFs "queue.jsonl" "tmp42" [] .atFsync
    (by rfl) (by rfl)
  exact ⟨h.1, h.2 "queue.jsonl"⟩

/-! ## Claims C4, C5, C10 -/

lemma mem_updateFirst {p : Task → Bool} {f : Task → Task} {l : List Task}
    {u : Task} (hu : u ∈ updateFirst p f l) :
    u ∈ l ∨ ∃ t, l.find? p = some t ∧ u = f t := by
  induction l with
  | nil => simp [updateFirst] at hu
  | cons a l ih =>
    simp only [updateFirst] at hu
    by_cases hp : p a
    · rw [if_pos hp] at hu
      rcases List.mem_cons.mp hu with rfl | hu2
      · exact Or.inr ⟨a, List.find?_cons_of_pos l hp, rfl⟩
      · exact Or.inl (List.mem_cons_of_mem a hu2)
    · rw [if_neg hp] at hu
      rcases List.mem_cons.mp hu with rfl | hu2
      · exact Or.inl (List.mem_cons_self _ _)
      · rcases ih hu2 with h | ⟨t, ht, rfl⟩
        · exact Or.inl (List.mem_cons_of_mem a h)
        · refine Or.inr ⟨t, ?_, rfl⟩
          rw [List.find?_cons_of_neg l (by simpa using hp)]
          exact ht

lemma find?_updateFirst {p : Task → Bool} {f : Task → Task}
    {l : List Task} {t : Task} (hf : l.find? p = some t)
    (hp : p (f t) = true) :
    (updateFirst p f l).find? p = some (f t) := by
  induction l with
  | nil => simp at hf
  | cons a l ih =>
    by_cases hpa : p a
    · rw [List.find?_cons_of_pos l hpa] at hf
      simp only [Option.some_inj] at hf
      subst hf
      simp only [updateFirst, if_pos hpa]
      exact List.find?_cons_of_pos _ hp
    · rw [List.find?_cons_of_neg l (by simpa using hpa)] at hf
      simp only [updateFirst, if_neg hpa]
      rw [List.find?_cons_of_neg _ (by simpa using hpa)]
      exact ih hf

/-- Claim C4: the three lifecycle functions are total: a task id absent from
the list is reported as not-found with the list untouched; when the task is
found, the outcome is exactly the transition table of the spec applied to its
current status; and every non-mutating outcome leaves the list unchanged. -/
theorem c4_lifecycle_total (items : List Task)
    (task_id rp ca em ep : String) :
    ((∀ t ∈ items, ¬ t.id = some task_id) →
      mark_in_progress items task_id = (items, .notFound) ∧
      mark_done items task_id rp ca = (items, .notFound) ∧
      mark_error items task_id em ep ca = (items, .notFound)) ∧
    (∀ t, items.find? (idMatches task_id) = some t →
      (mark_in_progress items task_id).2 = specStartOutcome t.status ∧
      (mark_done items task_id rp ca).2 = specCompleteOutcome t.status ∧
      (mark_error items task_id em ep ca).2 = specFailOutcome t.status) ∧
    (¬ (mark_in_progress items task_id).2 = .mutated →
      (mark_in_progress items task_id).1 = items) ∧
    (¬ (mark_done items task_id rp ca).2 = .mutated →
      (mark_done items task_id rp ca).1 = items) ∧
    (¬ (mark_error items task_id em ep ca).2 = .mutated →
      (mark_error items task_id em ep ca).1 = items) := by
  have hnone : (∀ t ∈ items, ¬ t.id = some task_id) →
      items.find? (idMatches task_id) = none := by
    intro h
    rw [List.find?_eq_none]
    intro t ht
    simpa [idMatches] using h t ht
  refine ⟨?_, ?_, ?_, ?_, ?_⟩
  · intro h
    have hf := hnone h
    exact ⟨by simp [mark_in_progress, hf], by simp [mark_done, hf],
      by simp [mark_error, hf]⟩
  · intro t ht
    refine ⟨?_, ?_, ?_⟩
    · simp only [mark_in_progress, ht, specStartOutcome]
      split_ifs <;> rfl
    · simp only [mark_done, ht, specCompleteOutcome]
      split_ifs <;> rfl
    · simp only [mark_error, ht, specFailOutcome]
      split_ifs <;> rfl
  · intro h
    simp only [mark_in_progress] at h ⊢
    cases hf : items.find? (idMatches task_id) with
    | none => simp [hf]
    | some t =>
      simp only [hf] at h ⊢
      split_ifs at h ⊢ with h1 h2 <;> first | rfl | exact absurd rfl h
  · intro h
    simp only [mark_done] at h ⊢
    cases hf : items.find? (idMatches task_id) with
    | none => simp [hf]
    | some t =>
      simp only [hf] at h ⊢
      split_ifs at h ⊢ with h1 h2 <;> first | rfl | exact absurd rfl h
  · intro h
    simp only [mark_error] at h ⊢
    cases hf : items.find? (idMatches task_id) with
    | none => simp [hf]
    | some t =>
      simp only [hf] at h ⊢
      split_ifs at h ⊢ with h1 h2 <;> first | rfl | exact absurd rfl h

/-- Witness for claim C4: the not-found branch on a concrete list. -/
theorem c4_witness :
    mark_in_progress [witTaskA] "absent" = ([witTaskA], .notFound) ∧
    mark_done [witTaskA] "absent" "r" "c" = ([witTaskA], .notFound) ∧
    mark_error [witTaskA] "absent" "m" "p" "c" = ([witTaskA], .notFound) :=
  (c4_lifecycle_total [witTaskA] "absent" "r" "c" "m" "p").1
    (by
      intro t ht
      simp only [List.mem_singleton] at ht
      subst ht
      decide)

/-- The specific task mutations of the three lifecycle functions. -/
def startMut (u : Task) : Task := { u with status := some "in_progress" }

/-- The mutation mark_done applies to the found task. -/
def doneMut (rp ca : String) (u : Task) : Task :=
  { u with
    status := some "done"
    result_path := some rp
    completed_at := some ca
    error_path := none
    error_msg := none }

/-- The mutation mark_error applies to the found task. -/
def errorMut (em ep ca : String) (u : Task) : Task :=
  { u with
    status := some "error"
    error_msg := some em
    error_path := some ep
    completed_at := some ca
    result_path := none }

/-- Claim C5: if every task of the list is a schema-status record satisfying
the terminal-fields invariant, then after any of the three lifecycle calls
every task of the resulting list still is. -/
theorem c5_invariant_preserved (items : List Task)
    (task_id rp ca em ep : String)
    (h : ∀ t ∈ items, statusEnum t ∧ TaskInvariant t) :
    (∀ u ∈ (mark_in_progress items task_id).1,
      statusEnum u ∧ TaskInvariant u) ∧
    (∀ u ∈ (mark_done items task_id rp ca).1,
      statusEnum u ∧ TaskInvariant u) ∧
    (∀ u ∈ (mark_error items task_id em ep ca).1,
      statusEnum u ∧ TaskInvariant u) := by
  refine ⟨?_, ?_, ?_⟩
  · intro u hu
    simp only [mark_in_progress] at hu
    cases hf : items.find? (idMatches task_id) with
    | none =>
      simp only [hf] at hu
      exact h u hu
    | some t =>
      simp only [hf] at hu
      split_ifs at hu with h1 h2
      · exact h u hu
      · exact h u hu
      · rcases mem_updateFirst hu with hm | ⟨t2, ht2, rfl⟩
        · exact h u hm
        · rw [hf] at ht2
          simp only [Option.some_inj] at ht2
          subst ht2
          have ht := h t (List.mem_of_find?_eq_some hf)
          have hpend : t.status = some "pending" := by
            rcases ht.1 with hs | hs | hs | hs
            · exact hs
            · exact absurd hs h1
            · exact absurd (Or.inl hs) h2
            · exact absurd (Or.inr hs) h2
          have hboth := ht.2.2 (Or.inl hpend)
          constructor
          · right; left; rfl
          · constructor
            · intro hc
              rcases hc with hc | hc <;> simp at hc
            · intro _
              exact ⟨hboth.1, hboth.2⟩
  · intro u hu
    simp only [mark_done] at hu
    cases hf : items.find? (idMatches task_id) with
    | none =>
      simp only [hf] at hu
      exact h u hu
    | some t =>
      simp only [hf] at hu
      split_ifs at hu with h1 h2
      · exact h u hu
      · exact h u hu
      · rcases mem_updateFirst hu with hm | ⟨t2, ht2, rfl⟩
        · exact h u hm
        · constructor
          · right; right; left; rfl
          · constructor
            · intro _
              exact Or.inl ⟨rfl, rfl⟩
            · intro hc
              rcases hc with hc | hc <;> simp at hc
  · intro u hu
    simp only [mark_error] at hu
    cases hf : items.find? (idMatches task_id) with
    | none =>
      simp only [hf] at hu
      exact h u hu
    | some t =>
      simp only [hf] at hu
      split_ifs at hu with h1 h2
      · exact h u hu
      · exact h u hu
      · rcases mem_updateFirst hu with hm | ⟨t2, ht2, rfl⟩
        · exact h u hm
        · constructor
          · right; right; right; rfl
          · constructor
            · intro _
              exact Or.inr ⟨rfl, rfl⟩
            · intro hc
              rcases hc with hc | hc <;> simp at hc

/-- The task witTaskA after mark_done. -/
def witTaskDone : Task :=
  ⟨some "w1", some "done", some 1, some "bbb", some "res.json", none, none,
    some "2024-01-01T00:00:00Z"⟩

/-- Witness for claim C5: after completing a concrete pending task, the
resulting record still satisfies the status enum and the invariant. -/
theorem c5_witness : statusEnum witTaskDone ∧ TaskInvariant witTaskDone :=
  (c5_invariant_preserved [witTaskA] "w1" "res.json"
      "2024-01-01T00:00:00Z" "m" "p"
      (by
        intro t ht
        simp only [List.mem_singleton] at ht
        subst ht
        exact ⟨by decide, by decide⟩)).2.1
    witTaskDone (by decide)

/-- Claim C10: a pending task is completed or failed directly: mark_done and
mark_error accept the pending-to-terminal transition as a mutation, without
an intermediate in_progress step, and the task afterwards carries the
terminal fields. -/
theorem c10_pending_direct_terminal (items : List Task)
    (task_id rp em ep ca : String) (t : Task)
    (hf : items.find? (idMatches task_id) = some t)
    (hp : t.status = some "pending") :
    (mark_done items task_id rp ca).2 = .mutated ∧
    (mark_done items task_id rp ca).1.find? (idMatches task_id) =
      some (doneMut rp ca t) ∧
    (mark_error items task_id em ep ca).2 = .mutated ∧
    (mark_error items task_id em ep ca).1.find? (idMatches task_id) =
      some (errorMut em ep ca t) := by
  have hid : idMatches task_id t = true := List.find?_some hf
  have h1 : ¬ t.status = some "done" := by rw [hp]; simp
  have h2 : ¬ t.status = some "error" := by rw [hp]; simp
  refine ⟨?_, ?_, ?_, ?_⟩
  · simp [mark_done, hf, h1, h2]
  · simp only [mark_done, hf, if_neg h1, if_neg h2]
    exact find?_updateFirst hf (by simpa [idMatches, doneMut] using hid)
  · simp [mark_error, hf, h1, h2]
  · simp only [mark_error, hf, if_neg h2, if_neg h1]
    exact find?_updateFirst hf (by simpa [idMatches, errorMut] using hid)

/-- Witness for claim C10 on a concrete pending task. -/
theorem c10_witness :
    (mark_done [witTaskA] "w1" "r.json" "ts").2 = .mutated ∧
    (mark_done [witTaskA] "w1" "r.json" "ts").1.find?
      (idMatches "w1") = some (doneMut "r.json" "ts" witTaskA) ∧
    (mark_error [witTaskA] "w1" "m" "p.json" "ts").2 = .mutated ∧
    (mark_error [witTaskA] "w1" "m" "p.json" "ts").1.find?
      (idMatches "w1") = some (errorMut "m" "p.json" "ts" witTaskA) :=
  c10_pending_direct_terminal [witTaskA] "w1" "r.json" "m" "p.json" "ts"
    witTaskA (by rfl) (by rfl)

/-! ## Claims C6, C7, C9 -/

/-- Claim C6: read_block validates in strict mode exactly when the declared
status of the record is ok: the validation outcome of read_block coincides with
validate_block under strict = true for ok records and under strict = false
for every other status. -/
theorem c6_read_block_strict (c : Codec) (b : BlockRecord) :
    (b.status = some "ok" →
      read_block c b = (validate_block c b true).map (fun _ => b)) ∧
    (¬ b.status = some "ok" →
      read_block c b = (validate_block c b false).map (fun _ => b)) := by
  constructor
  · intro h
    have hs : decide (b.status = some "ok") = true := by simp [h]
    simp only [read_block, hs]
    cases validate_block c b true <;> rfl
  · intro h
    simp only [read_block, decide_eq_false h]
    cases validate_block c b false <;> rfl

/-- A trivial codec instance for the C6 witness. -/
def witCodec : Codec :=
  ⟨fun _ _ => some [], fun _ => [], fun _ => "", fun _ => true⟩

/-- A block record with status ok. -/
def witBlockOk : BlockRecord :=
  ⟨some "b1", none, none, some "hi", some "utf-8", some 0, some "",
    some "ok"⟩

/-- Witness for claim C6 on a concrete ok record. -/
theorem c6_witness :
    read_block witCodec witBlockOk =
      (validate_block witCodec witBlockOk true).map (fun _ => witBlockOk) :=
  (c6_read_block_strict witCodec witBlockOk).1 (by rfl)

lemma notMem_append_singleton {x y : VRule} {l : List VRule}
    (hl : ¬ x ∈ l) (hxy : ¬ x = y) : ¬ x ∈ l ++ [y] := by
  intro h
  rcases List.mem_append.mp h with h2 | h2
  · exact hl h2
  · exact hxy (List.mem_singleton.mp h2)

lemma checksAfterEncoding_no_flags (c : Codec) (b : BlockRecord)
    (strict : Bool) (warns0 : List VRule) (encoded : List Nat)
    (hhash : b.hash_sha256.getD "" = c.sha256hex encoded)
    (hsize : b.size_bytes.getD 0 = (encoded.length : Int))
    (hw1 : ¬ VRule.sizeTolerance ∈ warns0)
    (hw2 : ¬ VRule.hashMismatch ∈ warns0) :
    (∀ r, checksAfterEncoding c b strict warns0 encoded =
        .error (.strictFail r) →
      ¬ r = .sizeTolerance ∧ ¬ r = .hashMismatch) ∧
    (∀ warns, checksAfterEncoding c b strict warns0 encoded = .ok warns →
      ¬ VRule.sizeTolerance ∈ warns ∧ ¬ VRule.hashMismatch ∈ warns) := by
  have hmm : (if b.size_bytes.getD 0 = 0 then
      decide ((encoded.length : Int) ≠ 0)
      else decide ((100 : Int) *
        ((encoded.length : Int) - b.size_bytes.getD 0).natAbs >
          8 * b.size_bytes.getD 0)) = false := by
    rw [hsize]
    split_ifs with h0
    · simp only [decide_eq_false_iff_not, not_not, Ne]
      exact h0
    · simp only [decide_eq_false_iff_not, not_lt]
      have habs : ((encoded.length : Int) - (encoded.length : Int)).natAbs =
          0 := by simp
      rw [habs]
      omega
  have hhb : decide (c.sha256hex encoded ≠ b.hash_sha256.getD "") =
      false := by
    simp [hhash]
  simp only [checksAfterEncoding]
  rw [hmm, hhb]
  simp only [Bool.and_false, Bool.false_eq_true, if_false]
  clear hmm hhb
  constructor
  · intro r
    split_ifs <;> intro hr
    all_goals first
      | (injection hr with hr2; injection hr2 with hr3; subst hr3;
          exact ⟨by decide, by decide⟩)
      | exact hr.elim
  · intro warns
    split_ifs <;> intro hw
    all_goals first
      | (injection hw with hw2; subst hw2; constructor <;>
          (repeat first
            | exact hw1
            | exact hw2
            | refine notMem_append_singleton ?_ (by decide)))
      | exact hw.elim

/-- Claim C7: a record whose text re-encodes under its declared encoding and
whose recorded hash and size match the re-encoded bytes exactly never flags
the size-tolerance rule or the hash rule, in either mode: a strict failure
names a different rule and a soft run returns a warning list omitting both. -/
theorem c7_exact_hash_size (c : Codec) (b : BlockRecord) (strict : Bool)
    (encoded : List Nat)
    (henc : c.encodeStrict (b.text.getD "") (b.encoding.getD "utf-8") =
      some encoded)
    (hhash : b.hash_sha256.getD "" = c.sha256hex encoded)
    (hsize : b.size_bytes.getD 0 = (encoded.length : Int)) :
    (∀ r, validate_block c b strict = .error (.strictFail r) →
      ¬ r = .sizeTolerance ∧ ¬ r = .hashMismatch) ∧
    (∀ warns, validate_block c b strict = .ok warns →
      ¬ VRule.sizeTolerance ∈ warns ∧ ¬ VRule.hashMismatch ∈ warns) := by
  simp only [validate_block, henc]
  split_ifs with hs hl
  · constructor
    · intro r hr
      exact absurd hr (by simp)
    · intro warns hw
      exact absurd hw (by simp)
  · constructor
    · intro r hr
      injection hr with hr2
      injection hr2 with hr3
      subst hr3
      exact ⟨by decide, by decide⟩
    · intro warns hw
      exact absurd hw (by simp)
  · exact checksAfterEncoding_no_flags c b strict [VRule.textLength]
      encoded hhash hsize (by decide) (by decide)
  · exact checksAfterEncoding_no_flags c b strict [] encoded hhash hsize
      (by decide) (by decide)

/-- A codec whose oracles match the C7 witness record: the text encodes to
two bytes whose digest is the recorded hash. -/
def witCodec7 : Codec :=
  ⟨fun _ _ => some [104, 105], fun _ => [],
    fun _ => "8b2", fun _ => true⟩

/-- A block record whose recorded size and hash match the encoding exactly. -/
def witBlock7 : BlockRecord :=
  ⟨some "b7", some 1, some 1, some "hi", some "utf-8", some 2, some "8b2",
    some "ok"⟩

/-- Witness for claim C7: the strict validation of the matching record
returns with an empty warning list, which contains neither flag. -/
theorem c7_witness :
    ¬ VRule.sizeTolerance ∈ ([] : List VRule) ∧
    ¬ VRule.hashMismatch ∈ ([] : List VRule) :=
  (c7_exact_hash_size witCodec7 witBlock7 true [104, 105]
      (by rfl) (by rfl) (by rfl)).2 [] (by rfl)

/-- Claim C9: an existing result file is returned as-is and never
overwritten, and a second error for a block goes to the timestamp-suffixed
path, distinct from the existing base file, so both error reports are
retained. -/
theorem c9_report_preservation (payloadOk resultOk errOk : JVal → Bool)
    (fs fs2 : FSt JVal)
    (bd bid model ver : String) (analysis : JVal) (cat : String)
    (bd2 bid2 tid2 etype edetail : String) (resp : Option String)
    (ts : String) (c e : JVal)
    (hpok : payloadOk analysis = true)
    (hrok : resultOk (resultWrapper bid model cat ver analysis) = true)
    (hex : fs.files (resultPath bd bid) = some c)
    (heok : errOk (errorObject bid2 tid2 etype edetail resp ts) = true)
    (hex2 : fs2.files (errorBasePath bd2 bid2) = some e) :
    write_result payloadOk resultOk fs bd bid model ver analysis cat =
      (fs, .ok (resultPath bd bid)) ∧
    (write_error errOk fs2 bd2 bid2 tid2 etype edetail resp ts).2 =
      .ok (errorTsPath bd2 bid2 ts) ∧
    ¬ errorTsPath bd2 bid2 ts = errorBasePath bd2 bid2 ∧
    (write_error errOk fs2 bd2 bid2 tid2 etype edetail resp ts).1.files
      (errorBasePath bd2 bid2) = some e ∧
    (write_error errOk fs2 bd2 bid2 tid2 etype edetail resp ts).1.files
      (errorTsPath bd2 bid2 ts) =
      some (errorObject bid2 tid2 etype edetail resp ts) := by
  have hne : ¬ errorTsPath bd2 bid2 ts = errorBasePath bd2 bid2 := by
    intro hpath
    have hlen := congrArg String.length hpath
    simp only [errorTsPath, errorBasePath, String.length_append] at hlen
    have h2 : ("__" : String).length = 2 := rfl
    omega
  refine ⟨?_, ?_, hne, ?_, ?_⟩
  · simp only [write_result]
    rw [hpok, hrok, hex]
    rfl
  · simp only [write_error]
    rw [heok, hex2]
    rfl
  · simp only [write_error]
    rw [heok, hex2]
    show (fs2.set (errorTsPath bd2 bid2 ts) _).files
      (errorBasePath bd2 bid2) = some e
    simp only [FSt.set]
    rw [if_neg (fun hc => hne hc.symm)]
    exact hex2
  · simp only [write_error]
    rw [heok, hex2]
    show (fs2.set (errorTsPath bd2 bid2 ts) _).files
      (errorTsPath bd2 bid2 ts) = _
    simp [FSt.set]

/-- A file system already holding a result and an error report for the
witness block. -/
def witFs9 : FSt JVal :=
  ⟨fun q =>
    if q = resultPath "base" "blk" then some (.str "old-result")
    else if q = errorBasePath "base" "blk" then some (.str "old-error")
    else none⟩

/-- Witness for claim C9 on concrete paths: the result write returns the
existing path with the file system unchanged, and the error write lands on
the distinct suffixed path while the old error survives. -/
theorem c9_witness :
    write_result (fun _ => true) (fun _ => true) witFs9 "base" "blk" "m"
        "v1" (.str "payload") "2024-01-01T00:00:00Z" =
      (witFs9, .ok (resultPath "base" "blk")) ∧
    (write_error (fun _ => true) witFs9 "base" "blk" "t1" "Network" "boom"
        none "2024-01-01T00:00:00Z").2 =
      .ok (errorTsPath "base" "blk" "2024-01-01T00:00:00Z") ∧
    ¬ errorTsPath "base" "blk" "2024-01-01T00:00:00Z" =
      errorBasePath "base" "blk" ∧
    (write_error (fun _ => true) witFs9 "base" "blk" "t1" "Network" "boom"
        none "2024-01-01T00:00:00Z").1.files (errorBasePath "base" "blk") =
      some (.str "old-error") ∧
    (write_error (fun _ => true) witFs9 "base" "blk" "t1" "Network" "boom"
        none "2024-01-01T00:00:00Z").1.files
        (errorTsPath "base" "blk" "2024-01-01T00:00:00Z") =
      some (errorObject "blk" "t1" "Network" "boom" none
        "2024-01-01T00:00:00Z") :=
  c9_report_preservation (fun _ => true) (fun _ => true) (fun _ => true)
    witFs9 witFs9 "base" "blk" "m" "v1" (.str "payload")
    "2024-01-01T00:00:00Z" "base" "blk" "t1" "Network" "boom" none
    "2024-01-01T00:00:00Z" (.str "old-result") (.str "old-error")
    (by rfl) (by rfl) (by rfl) (by rfl) (by rfl)

end OperatorAgent
